import Mathlib

/-!
Verification of the ionicons build script
(src/assets/fonts/ionicons/scripts/build.ts) against its specification.

The script is modelled by a shallow embedding: JavaScript strings become
Lean `String`s (treated as their `List Char` of code points; the icon file
names and attribute values in play are ASCII, where JS per-code-unit case
conversion agrees with `Char.toLower`/`Char.toUpper`), thrown exceptions
become `Except String`/`Option` results, and the stable JS `Array.sort`
with a three-way comparator is modelled by Mathlib's stable
`List.insertionSort` over the comparator's induced total preorder.
File-system writes are modelled by the list of paths the script would
write, produced only after the loader succeeds, mirroring the script's
control flow in `build`.
-/

/-- Separator predicate of the regexp in camelize: text.split(/[-_]/g). -/
def isSep (c : Char) : Bool := c == '-' || c == '_'

/-- Dot predicate for fileName.split around the period check in getSvgs. -/
def isDot (c : Char) : Bool := c == '.'

/-- JS String.prototype.split with a character-class separator: every
separator character ends the current segment, so consecutive separators
and leading or trailing separators produce empty segments, and the empty
input yields one empty segment. -/
def splitSeps (p : Char → Bool) : List Char → List (List Char)
  | [] => [[]]
  | c :: rest =>
    if p c then
      [] :: splitSeps p rest
    else
      match splitSeps p rest with
      | [] => [[c]]
      | s :: ss => (c :: s) :: ss

/-- upFirst from build.ts: word[0].toUpperCase() + word.toLowerCase().slice(1).
On the empty word, word[0] is undefined and .toUpperCase() throws a
TypeError, modelled by `none`. -/
def upFirst : List Char → Option (List Char)
  | [] => none
  | c :: cs => some (c.toUpper :: ((c :: cs).map Char.toLower).drop 1)

/-- Sequencing of a fallible map over a list: the first failure aborts the
whole map (as a thrown exception does inside Array.prototype.map). -/
def mapOption (f : α → Option β) : List α → Option (List β)
  | [] => some []
  | x :: xs =>
    match f x with
    | none => none
    | some b =>
      match mapOption f xs with
      | none => none
      | some bs => some (b :: bs)

/-- camelize from build.ts, on the character list of its argument:
words = text.split(/[-_]/g);
words[0].toLowerCase() + words.slice(1).map(upFirst).join('').
Partial because upFirst throws on an empty word. -/
def camelizeL (cs : List Char) : Option (List Char) :=
  let words := splitSeps isSep cs
  (mapOption upFirst words.tail).map
    (fun ts => words.headI.map Char.toLower ++ ts.flatten)

/-- camelize from build.ts, on strings. -/
def camelize (text : String) : Option String :=
  (camelizeL text.data).map String.mk

/-- Modelled from the spec: upper-case a segment's first character and
lower-case the remainder (total on the empty segment, which the spec's
wording leaves undefined). -/
def specUpFirst : List Char → List Char
  | [] => []
  | c :: cs => c.toUpper :: cs.map Char.toLower

/-- Modelled from the spec: camel-case conversion splitting on hyphen or
underscore, lower-casing the first segment entirely, upper-casing the
first character and lower-casing the remainder of every later segment,
concatenating with no separator. -/
def specCamelize (text : String) : String :=
  let words := splitSeps isSep text.data
  String.mk (words.headI.map Char.toLower ++ (words.tail.map specUpFirst).flatten)

/-- The hidden-file filter in getSvgs: fileName.startsWith('.'). -/
def startsWithDot (fileName : String) : Bool := ['.'].isPrefixOf fileName.data

/-- The extension filter in getSvgs: fileName.endsWith('.svg'),
case-sensitive. -/
def endsSvg (fileName : String) : Bool := ".svg".data.isSuffixOf fileName.data

/-- The per-file record produced by getSvgs; the file contents read by
fs.readFile are not modelled (no claim depends on them at load time). -/
structure SvgMeta where
  fileName : String
  iconName : String
  fileNameMjs : String
  fileNameCjs : String
  exportName : String
deriving DecidableEq

/-- The body of the per-file callback in getSvgs: the lowercase check,
the at-most-one-period check over fileName.split('.'), the derivation of
iconName, fileNameMjs, fileNameCjs and exportName = camelize(iconName).
A thrown exception is an `Except.error` carrying the message. -/
def processFileName (fileName : String) : Except String SvgMeta :=
  if fileName.data.map Char.toLower ≠ fileName.data then
    Except.error ("svg filename \"" ++ fileName ++ "\" must be all lowercase")
  else
    let dotSplit := splitSeps isDot fileName.data
    if 2 < dotSplit.length then
      Except.error ("svg filename \"" ++ fileName ++ "\" cannot contain more than one period")
    else
      let iconName : String := String.mk dotSplit.headI
      match camelize iconName with
      | none => Except.error ("TypeError in upFirst: empty segment in \"" ++ iconName ++ "\"")
      | some exportName =>
        Except.ok
          { fileName := fileName
            iconName := iconName
            fileNameMjs := iconName ++ ".mjs"
            fileNameCjs := iconName ++ ".js"
            exportName := exportName }

/-- Fallible map, failing as soon as one element fails: models
Promise.all over the per-file callbacks, which rejects when one of them
throws. -/
def mapExcept (f : α → Except ε β) : List α → Except ε (List β)
  | [] => Except.ok []
  | x :: xs =>
    match f x with
    | Except.error e => Except.error e
    | Except.ok b =>
      match mapExcept f xs with
      | Except.error e => Except.error e
      | Except.ok bs => Except.ok (b :: bs)

/-- The comparator passed to svgData.sort in getSvgs orders by
exportName; a stable sort under it places a before b iff not
(b.exportName < a.exportName). -/
def exportLe (a b : SvgMeta) : Prop := ¬ b.exportName < a.exportName

instance : DecidableRel exportLe :=
  fun a b => inferInstanceAs (Decidable ¬ b.exportName < a.exportName)

/-- getSvgs from build.ts on a directory listing: filter out hidden files
and files without the lowercase ".svg" suffix, process every remaining
file name (any throw aborts), and sort the records by exportName. -/
def getSvgs (listing : List String) : Except String (List SvgMeta) :=
  let svgFiles := listing.filter (fun fileName => !startsWithDot fileName && endsSvg fileName)
  (mapExcept processFileName svgFiles).map (List.insertionSort exportLe)

/-- The output files the build writes for a given record list, in the
order of build: the optimized SVGs (optimizeSvg), the two catalogs
(createDataJson), the per-icon import wrappers and index files
(createIconPackage), the sprite (createSvgSymbols), the cheatsheet
(createCheatsheet) and the test mirror (copyToTesting). -/
def outputPaths (recs : List SvgMeta) : List String :=
  recs.map (fun r => "dist/ionicons/svg/" ++ r.fileName)
    ++ ["src/data.json", "dist/ionicons.json"]
    ++ recs.map (fun r => "icons/imports/" ++ r.fileNameMjs)
    ++ recs.map (fun r => "icons/imports/" ++ r.fileNameCjs)
    ++ ["icons/index.mjs", "icons/index.js", "icons/index.d.ts", "icons/package.json",
        "dist/ionicons.symbols.svg", "dist/cheatsheet.html"]
    ++ recs.map (fun r => "www/build/svg/" ++ r.fileName)
    ++ ["www/cheatsheet.html"]

/-- The build's file writes: every write in build happens after getSvgs
has resolved (optimizeSvgs and the emitters are only reached then), so a
loader throw yields an error with no output file written. The emptyDir
calls that precede the loader delete directories and write no output
file. -/
def buildWrittenFiles (listing : List String) : Except String (List String) :=
  (getSvgs listing).map outputPaths

/-- A catalog entry of data.json: { name, tags? }. `tags = none` models an
absent (undefined/null) tags field; `some []` models a present empty
array, which JavaScript's `icon.tags || ...` keeps (an array is truthy). -/
structure IconEntry where
  name : String
  tags : Option (List String)
deriving DecidableEq

/-- The persisted catalog object. The build.ts interface JsonData
declares only `icons` and an optional `version`; `name` models a
top-level name field that fs.readJson would preserve and JSON.stringify
would write back — the build itself never sets either field on the
source-of-truth catalog. A failed read yields `{}` and then
`data.icons = []`, i.e. all fields absent. -/
structure JsonData where
  name : Option String
  version : Option String
  icons : List IconEntry
deriving DecidableEq

/-- The add-new-icons loop of createDataJson: for each current icon name
in order, push { name } unless an entry with that name is already in the
(growing) list. -/
def addNew (icons : List IconEntry) (names : List String) : List IconEntry :=
  names.foldl
    (fun acc n => if acc.any (fun e => e.name == n) then acc else acc ++ [{ name := n, tags := none }])
    icons

/-- The keep predicate of the remove-dead-icons filter in createDataJson:
srcSvgData.some(svgData => dataIcon.name === svgData.iconName). -/
def keepAlive (names : List String) (e : IconEntry) : Bool :=
  names.any (fun n => e.name == n)

/-- The remove-dead-icons step of createDataJson. -/
def removeDead (icons : List IconEntry) (names : List String) : List IconEntry :=
  icons.filter (keepAlive names)

/-- Order induced on entries by the name comparator passed to sort in
createDataJson. -/
def entryLe (a b : IconEntry) : Prop := ¬ b.name < a.name

instance : DecidableRel entryLe :=
  fun a b => inferInstanceAs (Decidable ¬ b.name < a.name)

instance : IsTotal IconEntry entryLe :=
  ⟨fun a b => by simp only [entryLe, not_lt]; exact le_total a.name b.name⟩

instance : IsTrans IconEntry entryLe :=
  ⟨fun a b c hab hbc => by
    simp only [entryLe, not_lt] at hab hbc ⊢
    exact le_trans hab hbc⟩

/-- Order induced on strings by the default comparator of
Array.prototype.sort applied to an array of strings (tags.sort()). -/
def strLe (a b : String) : Prop := ¬ b < a

instance : DecidableRel strLe :=
  fun a b => inferInstanceAs (Decidable ¬ b < a)

instance : IsTotal String strLe :=
  ⟨fun a b => by simp only [strLe, not_lt]; exact le_total a b⟩

instance : IsTrans String strLe :=
  ⟨fun a b c hab hbc => by
    simp only [strLe, not_lt] at hab hbc ⊢
    exact le_trans hab hbc⟩

/-- The stable JS sort of the catalog entry list by name. -/
def jsSortEntries (l : List IconEntry) : List IconEntry := List.insertionSort entryLe l

/-- The stable JS sort of a tag list: tags.sort(). -/
def jsSortStrings (l : List String) : List String := List.insertionSort strLe l

/-- icon.name.split('-') in createDataJson. -/
def splitDashes (s : String) : List String :=
  (splitSeps (fun c => c == '-') s.data).map String.mk

/-- The per-entry tags step of createDataJson:
icon.tags = icon.tags || icon.name.split('-'); icon.tags = icon.tags.sort(). -/
def tagFill (e : IconEntry) : IconEntry :=
  { name := e.name, tags := some (jsSortStrings (e.tags.getD (splitDashes e.name))) }

/-- The pure core of createDataJson on the entry list: add new icons,
remove dead icons, sort by name, then fill and sort tags. -/
def reconcileIcons (icons : List IconEntry) (names : List String) : List IconEntry :=
  (jsSortEntries (removeDead (addNew icons names) names)).map tagFill

/-- createDataJson from build.ts as a pure function from the version, the
persisted catalog and the current icon names to the pair of JSON objects
written: first src/data.json (the input object with its icons replaced),
then dist/ionicons.json ({ name: 'ionicons', version, icons }). -/
def createDataJson (version : String) (data : JsonData) (names : List String) :
    JsonData × JsonData :=
  let icons := reconcileIcons data.icons names
  ({ name := data.name, version := data.version, icons := icons },
   { name := some "ionicons", version := some version, icons := icons })

/-- An icon record as consumed by the emitters after optimization; only
the fields the emitters read. -/
structure SvgData where
  fileName : String
  iconName : String
  fileNameMjs : String
  fileNameCjs : String
  exportName : String
  optimizedSvgContent : String
deriving DecidableEq

/-- Order induced on records by the iconName comparator passed to sort in
createSvgSymbols. -/
def iconLe (a b : SvgData) : Prop := ¬ b.iconName < a.iconName

instance : DecidableRel iconLe :=
  fun a b => inferInstanceAs (Decidable ¬ b.iconName < a.iconName)

/-- JS String.prototype.replace with a plain-string pattern: replace the
first occurrence only. -/
def replaceFirstL (pat rep : List Char) : List Char → List Char
  | [] => if pat.isPrefixOf ([] : List Char) then rep else []
  | c :: rest =>
    if pat.isPrefixOf (c :: rest) then rep ++ (c :: rest).drop pat.length
    else c :: replaceFirstL pat rep rest

/-- JS String.prototype.replace with a plain-string pattern, on strings. -/
def replaceFirst (pat rep s : String) : String :=
  String.mk (replaceFirstL pat.data rep.data s.data)

/-- The per-icon rewrite in createSvgSymbols: the root open tag becomes a
symbol open tag carrying the icon name as id, the close tag becomes a
symbol close tag. -/
def symbolSvg (r : SvgData) : String :=
  replaceFirst "</svg>" "</symbol>"
    (replaceFirst "<svg xmlns=\"http://www.w3.org/2000/svg\""
      ("<symbol id=\"" ++ r.iconName ++ "\"") r.optimizedSvgContent)

/-- createSvgSymbols from build.ts as a pure function to the sprite
document it writes and returns: sort the records by iconName, emit the
container open tag with the version marker, the shared style block, one
symbol per icon, and the container close tag, joined by newlines. -/
def createSvgSymbols (version : String) (recs : List SvgData) : String :=
  let sorted := List.insertionSort iconLe recs
  let lines : List String :=
    ["<svg data-ionicons=\"" ++ version ++ "\" style=\"display:none\">",
     "<style>",
     ".ionicon \x7b",
     "  fill: currentColor;",
     "  stroke: currentColor;",
     "\x7d",
     ".ionicon-fill-none \x7b",
     "  fill: none;",
     "\x7d",
     ".ionicon-stroke-width \x7b",
     "  stroke-width: 32px;",
     "\x7d",
     "</style>"]
    ++ sorted.map symbolSvg
    ++ ["</svg>", ""]
  String.intercalate "\n" lines

/-- The ES-module index written by createEsmIcons (icons/index.mjs). -/
def esmIndex (version : String) (recs : List SvgData) : String :=
  let head := ["\x2f* Ionicons v" ++ version ++ ", ES Modules *\x2f", ""]
  let imports := recs.map (fun r =>
    "import " ++ r.exportName ++ " from \x27./imports/" ++ r.fileNameMjs ++ "\x27;")
  let exports := recs.map (fun r => "export \x7b " ++ r.exportName ++ " \x7d")
  String.intercalate "\n" (head ++ imports ++ exports) ++ "\n"

/-- The per-icon ES-module wrapper written by createEsmIcons
(icons/imports/<name>.mjs). -/
def esmImportFile (r : SvgData) : String :=
  String.intercalate "\n"
    ["import " ++ r.exportName ++ "Svg from \x27../../dist/ionicons/svg/" ++ r.fileName ++ "\x27;",
     "export default \x2f*#__PURE__*\x2f " ++ r.exportName ++ "Svg;",
     ""]

/-- The CommonJS index written by createCjsIcons (icons/index.js). -/
def cjsIndex (version : String) (recs : List SvgData) : String :=
  let head := ["\x2f* Ionicons v" ++ version ++ ", CommonJS *\x2f", ""]
  let entries := recs.map (fun r =>
    "exports." ++ r.exportName ++ " = \x2f*#__PURE__*\x2f require(\x27./imports/"
      ++ r.fileNameCjs ++ "\x27);")
  String.intercalate "\n" (head ++ entries) ++ "\n"

/-- The per-icon CommonJS wrapper written by createCjsIcons
(icons/imports/<name>.js). -/
def cjsImportFile (r : SvgData) : String :=
  String.intercalate "\n"
    ["module.exports = \x2f*#__PURE__*\x2f require(\x27../../dist/ionicons/svg/"
       ++ r.fileName ++ "\x27);",
     ""]

/-- The type-declaration index written by createDtsIcons (icons/index.d.ts). -/
def dtsIndex (version : String) (recs : List SvgData) : String :=
  let head := ["\x2f* Ionicons v" ++ version ++ ", Types *\x2f", ""]
  let entries := recs.map (fun r => "export declare var " ++ r.exportName ++ ": string;")
  String.intercalate "\n" (head ++ entries) ++ "\n"

/-- The catalog, sprite and package outputs of one build run, as written
by createDataJson, createSvgSymbols and createIconPackage. -/
structure BuildArtifacts where
  srcCatalog : JsonData
  distCatalog : JsonData
  sprite : String
  esm : String
  cjs : String
  dts : String
  esmImports : List String
  cjsImports : List String
deriving DecidableEq

/-- One build run over fixed version, persisted catalog and optimized
icon records: the catalog, sprite and package outputs it writes. -/
def runArtifacts (version : String) (data : JsonData) (recs : List SvgData) :
    BuildArtifacts :=
  let catalogs := createDataJson version data (recs.map SvgData.iconName)
  { srcCatalog := catalogs.1
    distCatalog := catalogs.2
    sprite := createSvgSymbols version recs
    esm := esmIndex version recs
    cjs := cjsIndex version recs
    dts := dtsIndex version recs
    esmImports := recs.map esmImportFile
    cjsImports := recs.map cjsImportFile }

/-- An SVG element as seen by the svgo perItem plugin: its attribute list
(name, value pairs, in document order) and its CSS class set. -/
structure SvgElem where
  attrs : List (String × String)
  classes : List String
deriving DecidableEq

/-- item.class.add: svgo's class list is a set, so adding a class already
present is a no-op. -/
def addClass (classes : List String) (c : String) : List String :=
  if classes.contains c then classes else classes ++ [c]

/-- The eachAttr loop of the addFillNoneCss plugin in build.ts, attribute
by attribute: a fill attribute is removed (adding ionicon-fill-none first
when its value is none), a stroke attribute is removed, a stroke-width
attribute with value exactly 32 is removed and ionicon-stroke-width is
added, and any other attribute is kept. Returns the surviving attributes
and the updated class set. -/
def processAttrs : List (String × String) → List String → List (String × String) × List String
  | [], classes => ([], classes)
  | (n, v) :: rest, classes =>
    if n == "fill" then
      processAttrs rest (if v == "none" then addClass classes "ionicon-fill-none" else classes)
    else if n == "stroke" then
      processAttrs rest classes
    else if n == "stroke-width" && v == "32" then
      processAttrs rest (addClass classes "ionicon-stroke-width")
    else
      let p := processAttrs rest classes
      ((n, v) :: p.1, p.2)

/-- The addFillNoneCss plugin applied to one element. -/
def addFillNoneCss (e : SvgElem) : SvgElem :=
  let p := processAttrs e.attrs e.classes
  { attrs := p.1, classes := p.2 }

/-- The attributes the addFillNoneCss plugin leaves on an element. -/
def keptAttr (a : String × String) : Bool :=
  !(a.1 == "fill") && !(a.1 == "stroke") && !(a.1 == "stroke-width" && a.2 == "32")

theorem splitSeps_ne_nil (p : Char → Bool) (cs : List Char) : splitSeps p cs ≠ [] := by
  induction cs with
  | nil => simp [splitSeps]
  | cons c rest ih =>
    by_cases h : p c
    · simp [splitSeps, h]
    · cases hs : splitSeps p rest with
      | nil => simp [splitSeps, h, hs]
      | cons s ss => simp [splitSeps, h, hs]

theorem upFirst_of_ne_nil (w : List Char) (h : w ≠ []) : upFirst w = some (specUpFirst w) := by
  cases w with
  | nil => exact absurd rfl h
  | cons c cs => simp [upFirst, specUpFirst]

theorem upFirst_eq_none_iff (w : List Char) : upFirst w = none ↔ w = [] := by
  cases w <;> simp [upFirst]

theorem mapOption_upFirst_of_forall (ws : List (List Char)) (h : ∀ w ∈ ws, w ≠ []) :
    mapOption upFirst ws = some (ws.map specUpFirst) := by
  induction ws with
  | nil => simp [mapOption]
  | cons w ws ih =>
    have hw : w ≠ [] := h w (List.mem_cons_self _ _)
    rw [List.map_cons, mapOption, upFirst_of_ne_nil w hw,
      ih (fun x hx => h x (List.mem_cons_of_mem _ hx))]

theorem mapOption_upFirst_eq_none (ws : List (List Char)) (h : [] ∈ ws) :
    mapOption upFirst ws = none := by
  induction ws with
  | nil => simp at h
  | cons w ws ih =>
    rw [mapOption]
    rcases List.mem_cons.mp h with h0 | h0
    · rw [← h0]; rfl
    · cases hw : upFirst w with
      | none => rfl
      | some b => rw [ih h0]

theorem mapExcept_error_of_mem (f : α → Except ε β) (l : List α) (x : α)
    (hx : x ∈ l) (e0 : ε) (hf : f x = Except.error e0) :
    ∃ e, mapExcept f l = Except.error e := by
  induction l with
  | nil => simp at hx
  | cons y ys ih =>
    rcases List.mem_cons.mp hx with h | h
    · subst h
      exact ⟨e0, by rw [mapExcept, hf]⟩
    · cases hy : f y with
      | error e => exact ⟨e, by rw [mapExcept, hy]⟩
      | ok b =>
        obtain ⟨e, he⟩ := ih h
        exact ⟨e, by rw [mapExcept, hy, he]⟩

theorem addClass_mem (classes : List String) (c x : String) :
    x ∈ addClass classes c ↔ x ∈ classes ∨ x = c := by
  unfold addClass
  split_ifs with h
  · have hc : c ∈ classes := by simpa using h
    constructor
    · exact Or.inl
    · rintro (hx | rfl)
      · exact hx
      · exact hc
  · simp

theorem processAttrs_fst (attrs : List (String × String)) :
    ∀ classes, (processAttrs attrs classes).1 = attrs.filter keptAttr := by
  induction attrs with
  | nil => intro classes; simp [processAttrs]
  | cons a rest ih =>
    intro classes
    obtain ⟨n, v⟩ := a
    by_cases h1 : n == "fill"
    · by_cases hv : v == "none" <;>
        simp [processAttrs, h1, hv, List.filter_cons, keptAttr, ih]
    · by_cases h2 : n == "stroke"
      · simp [processAttrs, h1, h2, List.filter_cons, keptAttr, ih]
      · by_cases h3 : (n == "stroke-width" && v == "32")
        · simp [processAttrs, h1, h2, h3, List.filter_cons, keptAttr, ih]
        · simp [processAttrs, h1, h2, h3, List.filter_cons, keptAttr, ih]

theorem processAttrs_snd_mem (attrs : List (String × String)) :
    ∀ (classes : List String) (x : String), x ∈ (processAttrs attrs classes).2 ↔
      (x ∈ classes ∨ (x = "ionicon-fill-none" ∧ ("fill", "none") ∈ attrs)
        ∨ (x = "ionicon-stroke-width" ∧ ("stroke-width", "32") ∈ attrs)) := by
  induction attrs with
  | nil => intro classes x; simp [processAttrs]
  | cons a rest ih =>
    intro classes x
    obtain ⟨n, v⟩ := a
    by_cases h1 : n == "fill"
    · have hn : n = "fill" := by simpa using h1
      subst hn
      by_cases hv : v == "none"
      · have hv2 : v = "none" := by simpa using hv
        subst hv2
        have hfs : ¬ ("stroke-width" : String) = "fill" := by decide
        simp [processAttrs, ih, addClass_mem, List.mem_cons, Prod.mk.injEq, hfs]
        tauto
      · have hv2 : ¬ v = "none" := by simpa using hv
        have hv3 : ¬ ("none" : String) = v := fun h => hv2 h.symm
        have hfs : ¬ ("stroke-width" : String) = "fill" := by decide
        simp [processAttrs, hv, ih, List.mem_cons, Prod.mk.injEq, hv3, hfs]
    · have hn1 : ¬ n = "fill" := by simpa using h1
      have hn2 : ¬ ("fill" : String) = n := fun h => hn1 h.symm
      by_cases h2 : n == "stroke"
      · have hs : n = "stroke" := by simpa using h2
        subst hs
        have ha : ¬ ("fill" : String) = "stroke" := by decide
        have hb : ¬ ("stroke-width" : String) = "stroke" := by decide
        simp [processAttrs, h1, ih, List.mem_cons, Prod.mk.injEq, ha, hb]
      · by_cases h3 : (n == "stroke-width" && v == "32")
        · have hsw : n = "stroke-width" ∧ v = "32" := by simpa using h3
          obtain ⟨hsw1, hsw2⟩ := hsw
          subst hsw1; subst hsw2
          have ha : ¬ ("fill" : String) = "stroke-width" := by decide
          simp [processAttrs, h1, h2, ih, addClass_mem, List.mem_cons, Prod.mk.injEq, ha]
          tauto
        · have h3a : ¬ (n = "stroke-width" ∧ v = "32") := by simpa using h3
          have h3b : ¬ (("stroke-width" : String) = n ∧ ("32" : String) = v) :=
            fun h => h3a ⟨h.1.symm, h.2.symm⟩
          simp [processAttrs, h1, h2, h3, ih, List.mem_cons, Prod.mk.injEq, hn2, h3b]

/-- C2: per attribute of an SVG element, the optimizer plugin removes a
fill attribute (adding the CSS class ionicon-fill-none exactly when its
value is none), removes any stroke attribute, removes a stroke-width
attribute with value exactly 32 adding the CSS class
ionicon-stroke-width, and leaves every other attribute (in particular a
stroke-width with any other value, such as 16) untouched; no class is
added except as above. -/
theorem addFillNoneCss_attr_rules (e : SvgElem) :
    (addFillNoneCss e).attrs = e.attrs.filter keptAttr
    ∧ ∀ x : String, x ∈ (addFillNoneCss e).classes ↔
        (x ∈ e.classes ∨ (x = "ionicon-fill-none" ∧ ("fill", "none") ∈ e.attrs)
          ∨ (x = "ionicon-stroke-width" ∧ ("stroke-width", "32") ∈ e.attrs)) :=
  ⟨processAttrs_fst e.attrs e.classes, fun x => processAttrs_snd_mem e.attrs e.classes x⟩

theorem camelizeL_eq_none (cs : List Char) (h : [] ∈ (splitSeps isSep cs).tail) :
    camelizeL cs = none := by
  simp only [camelizeL]
  rw [mapOption_upFirst_eq_none _ h]
  rfl

theorem camelize_eq_spec (text : String)
    (h : ∀ w ∈ (splitSeps isSep text.data).tail, w ≠ []) :
    camelize text = some (specCamelize text) := by
  simp only [camelize, camelizeL, specCamelize]
  rw [mapOption_upFirst_of_forall _ h]
  rfl

theorem getSvgs_error_of_processFileName (listing : List String) (f : String)
    (hmem : f ∈ listing) (hpass : (!startsWithDot f && endsSvg f) = true)
    (e0 : String) (herr : processFileName f = Except.error e0) :
    ∃ e, getSvgs listing = Except.error e := by
  have hf : f ∈ listing.filter (fun fileName => !startsWithDot fileName && endsSvg fileName) :=
    List.mem_filter.mpr ⟨hmem, hpass⟩
  obtain ⟨e, he⟩ := mapExcept_error_of_mem processFileName _ f hf e0 herr
  refine ⟨e, ?_⟩
  simp only [getSvgs]
  rw [he]
  rfl

theorem processFileName_error_of_upper (f : String)
    (hup : f.data.map Char.toLower ≠ f.data) :
    ∃ e, processFileName f = Except.error e := by
  refine ⟨"svg filename \"" ++ f ++ "\" must be all lowercase", ?_⟩
  simp only [processFileName]
  rw [if_pos hup]

theorem processFileName_error_of_dots (f : String)
    (hlow : f.data.map Char.toLower = f.data)
    (hdot : 2 < (splitSeps isDot f.data).length) :
    ∃ e, processFileName f = Except.error e := by
  refine ⟨"svg filename \"" ++ f ++ "\" cannot contain more than one period", ?_⟩
  simp only [processFileName]
  rw [if_neg (not_not_intro hlow), if_pos hdot]

theorem processFileName_error_of_camelize_none (f : String)
    (hlow : f.data.map Char.toLower = f.data)
    (hdot : ¬ 2 < (splitSeps isDot f.data).length)
    (hcam : camelize (String.mk (splitSeps isDot f.data).headI) = none) :
    ∃ e, processFileName f = Except.error e := by
  refine ⟨"TypeError in upFirst: empty segment in \""
    ++ String.mk (splitSeps isDot f.data).headI ++ "\"", ?_⟩
  simp only [processFileName]
  rw [if_neg (not_not_intro hlow), if_neg hdot, hcam]

/-- C1: for every icon identifier (whose separator-split segments after
the first are nonempty, the only case where the conversion is defined),
the derived export identifier camelize(identifier) equals the spec's
camel-case conversion: split on hyphen or underscore, lower-case the
first segment entirely, upper-case the first character and lower-case the
remainder of every later segment, concatenate with no separator; in
particular airplane-outline becomes airplaneOutline and logo-no-smoking
becomes logoNoSmoking. -/
theorem camelize_matches_spec (text : String)
    (h : ∀ w ∈ (splitSeps isSep text.data).tail, w ≠ []) :
    camelize text = some (specCamelize text)
    ∧ camelize "airplane-outline" = some "airplaneOutline"
    ∧ camelize "logo-no-smoking" = some "logoNoSmoking" :=
  ⟨camelize_eq_spec text h, by decide, by decide⟩

theorem camelize_matches_spec_witness :
    (∀ w ∈ (splitSeps isSep ("airplane-outline" : String).data).tail, w ≠ [])
    ∧ (camelize "airplane-outline" = some (specCamelize "airplane-outline")
       ∧ camelize "airplane-outline" = some "airplaneOutline"
       ∧ camelize "logo-no-smoking" = some "logoNoSmoking") :=
  ⟨by decide, camelize_matches_spec "airplane-outline" (by decide)⟩

/-- C6: when the source listing contains a non-hidden lowercase file name
ending in ".svg" whose name splits on periods into more than two parts
(more than one period), getSvgs throws and the build errors out before
any output file (optimized SVG, catalog, package, sprite or cheatsheet)
is written: buildWrittenFiles produces an error and no write list. -/
theorem build_aborts_on_two_periods (listing : List String) (f : String)
    (hmem : f ∈ listing) (hhid : startsWithDot f = false) (hsvg : endsSvg f = true)
    (hlow : f.data.map Char.toLower = f.data)
    (hdot : 2 < (splitSeps isDot f.data).length) :
    ∃ e, buildWrittenFiles listing = Except.error e := by
  obtain ⟨e0, he0⟩ := processFileName_error_of_dots f hlow hdot
  obtain ⟨e, he⟩ :=
    getSvgs_error_of_processFileName listing f hmem (by rw [hhid, hsvg]; rfl) e0 he0
  refine ⟨e, ?_⟩
  simp only [buildWrittenFiles]
  rw [he]
  rfl

theorem build_aborts_on_two_periods_witness :
    (("a.b.svg" : String) ∈ (["a.b.svg"] : List String)
      ∧ startsWithDot "a.b.svg" = false ∧ endsSvg "a.b.svg" = true
      ∧ "a.b.svg".data.map Char.toLower = "a.b.svg".data
      ∧ 2 < (splitSeps isDot "a.b.svg".data).length)
    ∧ ∃ e, buildWrittenFiles ["a.b.svg"] = Except.error e :=
  ⟨⟨by decide, by decide, by decide, by decide, by decide⟩,
   build_aborts_on_two_periods ["a.b.svg"] "a.b.svg"
     (by decide) (by decide) (by decide) (by decide) (by decide)⟩

/-- C9: camelize is partial: whenever splitting on hyphen or underscore
yields an empty segment after the first (consecutive separators or a
trailing separator), upFirst reads the first character of an empty string
and throws, so camelize returns none; and a file name that passes the
lowercase and single-period validations but whose icon identifier has
such an empty segment makes the loader getSvgs fail. -/
theorem camelize_throws_on_empty_segment (s fname : String) :
    ([] ∈ (splitSeps isSep s.data).tail → camelize s = none)
    ∧ (startsWithDot fname = false → endsSvg fname = true →
       fname.data.map Char.toLower = fname.data →
       ¬ 2 < (splitSeps isDot fname.data).length →
       [] ∈ (splitSeps isSep (String.mk (splitSeps isDot fname.data).headI).data).tail →
       ∃ e, getSvgs [fname] = Except.error e) := by
  constructor
  · intro h
    unfold camelize
    rw [camelizeL_eq_none s.data h]
    rfl
  · intro h1 h2 h3 h4 h5
    have hcam : camelize (String.mk (splitSeps isDot fname.data).headI) = none := by
      unfold camelize
      rw [camelizeL_eq_none _ h5]
      rfl
    obtain ⟨e0, he0⟩ := processFileName_error_of_camelize_none fname h3 h4 hcam
    exact getSvgs_error_of_processFileName [fname] fname (List.mem_singleton.mpr rfl)
      (by rw [h1, h2]; rfl) e0 he0

theorem camelize_throws_on_empty_segment_witness :
    ([] ∈ (splitSeps isSep ("a--b" : String).data).tail ∧ camelize "a--b" = none)
    ∧ ∃ e, getSvgs ["a--b.svg"] = Except.error e :=
  ⟨⟨by decide, (camelize_throws_on_empty_segment "a--b" "a--b.svg").1 (by decide)⟩,
   (camelize_throws_on_empty_segment "a--b" "a--b.svg").2
     (by decide) (by decide) (by decide) (by decide) (by decide)⟩

/-- C10: a file whose name does not end in the exact lowercase ".svg"
(such as Icon.SVG) is silently dropped by the case-sensitive suffix
filter — getSvgs succeeds with no record and no error — whereas a file
ending in lowercase ".svg" whose name contains an uppercase character
(such as Icon.svg) makes getSvgs throw: the uppercase-name validation
only applies to files surviving the extension filter. -/
theorem extension_filter_case_sensitivity (f : String) :
    (endsSvg f = false → getSvgs [f] = Except.ok [])
    ∧ (startsWithDot f = false → endsSvg f = true →
       f.data.map Char.toLower ≠ f.data → ∃ e, getSvgs [f] = Except.error e) := by
  constructor
  · intro hf
    simp only [getSvgs]
    have hfil :
        List.filter (fun fileName => !startsWithDot fileName && endsSvg fileName) [f] = [] := by
      simp [List.filter_cons, hf]
    rw [hfil]
    rfl
  · intro h1 h2 h3
    obtain ⟨e0, he0⟩ := processFileName_error_of_upper f h3
    exact getSvgs_error_of_processFileName [f] f (List.mem_singleton.mpr rfl)
      (by rw [h1, h2]; rfl) e0 he0

theorem extension_filter_case_sensitivity_witness :
    (endsSvg "Icon.SVG" = false ∧ getSvgs ["Icon.SVG"] = Except.ok [])
    ∧ (startsWithDot "Icon.svg" = false ∧ endsSvg "Icon.svg" = true
       ∧ "Icon.svg".data.map Char.toLower ≠ "Icon.svg".data
       ∧ ∃ e, getSvgs ["Icon.svg"] = Except.error e) :=
  ⟨⟨by decide, (extension_filter_case_sensitivity "Icon.SVG").1 (by decide)⟩,
   ⟨by decide, by decide, by decide,
    (extension_filter_case_sensitivity "Icon.svg").2 (by decide) (by decide) (by decide)⟩⟩

theorem addNew_nil (icons : List IconEntry) : addNew icons [] = icons := rfl

theorem addNew_cons (icons : List IconEntry) (n : String) (ns : List String) :
    addNew icons (n :: ns) =
      addNew (if icons.any (fun e => e.name == n) then icons
              else icons ++ [{ name := n, tags := none }]) ns := rfl

theorem addNew_any_mono :
    ∀ (names : List String) (acc : List IconEntry) (p : IconEntry → Bool),
      acc.any p = true → (addNew acc names).any p = true
  | [], _, _, h => h
  | n :: ns, acc, p, h => by
    rw [addNew_cons]
    apply addNew_any_mono ns _ p
    split_ifs with hc
    · exact h
    · simp [List.any_append, h]

theorem addNew_covers :
    ∀ (names : List String) (acc : List IconEntry) (n : String), n ∈ names →
      (addNew acc names).any (fun e => e.name == n) = true
  | m :: ms, acc, n, hn => by
    rw [addNew_cons]
    rcases List.mem_cons.mp hn with h | h
    · subst h
      apply addNew_any_mono ms _ _
      split_ifs with hc
      · exact hc
      · simp [List.any_append]
    · exact addNew_covers ms _ n h

theorem addNew_eq_self :
    ∀ (names : List String) (icons : List IconEntry),
      (∀ n ∈ names, icons.any (fun e => e.name == n) = true) → addNew icons names = icons
  | [], icons, _ => rfl
  | n :: ns, icons, h => by
    rw [addNew_cons, if_pos (h n (List.mem_cons_self _ _))]
    exact addNew_eq_self ns icons (fun m hm => h m (List.mem_cons_of_mem _ hm))

theorem addNew_nodup :
    ∀ (names : List String) (icons : List IconEntry),
      (icons.map IconEntry.name).Nodup → ((addNew icons names).map IconEntry.name).Nodup
  | [], _, h => h
  | n :: ns, icons, h => by
    rw [addNew_cons]
    apply addNew_nodup ns
    split_ifs with hc
    · exact h
    · have hn : n ∉ icons.map IconEntry.name := by
        intro hmem
        obtain ⟨e, he, hname⟩ := List.mem_map.mp hmem
        have : icons.any (fun e => e.name == n) = true :=
          List.any_eq_true.mpr ⟨e, he, by simp [hname]⟩
        exact hc this
      simp [List.nodup_append, h, hn]

theorem keepAlive_tagFill (names : List String) (e : IconEntry) :
    keepAlive names (tagFill e) = keepAlive names e := rfl

theorem reconcile_covers (icons : List IconEntry) (names : List String)
    (n : String) (hn : n ∈ names) :
    (reconcileIcons icons names).any (fun e => e.name == n) = true := by
  obtain ⟨e, he, hname⟩ := List.any_eq_true.mp (addNew_covers names icons n hn)
  have hname2 : e.name = n := by simpa using hname
  have hkeep : keepAlive names e = true :=
    List.any_eq_true.mpr ⟨n, hn, by simp [hname2]⟩
  have hmem1 : e ∈ removeDead (addNew icons names) names :=
    List.mem_filter.mpr ⟨he, hkeep⟩
  have hmem2 : e ∈ jsSortEntries (removeDead (addNew icons names) names) :=
    (List.mem_insertionSort entryLe).mpr hmem1
  exact List.any_eq_true.mpr
    ⟨tagFill e, List.mem_map_of_mem tagFill hmem2, by simp [tagFill, hname2]⟩

theorem reconcile_keep (icons : List IconEntry) (names : List String)
    (e : IconEntry) (he : e ∈ reconcileIcons icons names) :
    keepAlive names e = true := by
  obtain ⟨e0, he0, rfl⟩ := List.mem_map.mp he
  rw [keepAlive_tagFill]
  exact List.of_mem_filter ((List.mem_insertionSort entryLe).mp he0)

theorem reconcile_name_mem (icons : List IconEntry) (names : List String)
    (e : IconEntry) (he : e ∈ reconcileIcons icons names) :
    e.name ∈ names := by
  obtain ⟨n, hn, hbeq⟩ := List.any_eq_true.mp (reconcile_keep icons names e he)
  have : e.name = n := by simpa using hbeq
  rw [this]; exact hn

theorem reconcile_sorted (icons : List IconEntry) (names : List String) :
    List.Sorted entryLe (reconcileIcons icons names) := by
  unfold reconcileIcons jsSortEntries
  exact (List.sorted_insertionSort entryLe _).map tagFill (fun a b h => h)

theorem jsSortStrings_idem (l : List String) :
    jsSortStrings (jsSortStrings l) = jsSortStrings l :=
  List.Sorted.insertionSort_eq (List.sorted_insertionSort strLe l)

theorem tagFill_tagFill (e : IconEntry) : tagFill (tagFill e) = tagFill e := by
  simp [tagFill, jsSortStrings_idem]

theorem map_eq_self_of (l : List α) (f : α → α) (h : ∀ e ∈ l, f e = e) :
    l.map f = l := by
  induction l with
  | nil => rfl
  | cons a as ih =>
    rw [List.map_cons, h a (List.mem_cons_self _ _),
      ih (fun e he => h e (List.mem_cons_of_mem _ he))]

theorem reconcile_tagFill_fix (icons : List IconEntry) (names : List String)
    (e : IconEntry) (he : e ∈ reconcileIcons icons names) : tagFill e = e := by
  obtain ⟨e0, _, rfl⟩ := List.mem_map.mp he
  exact tagFill_tagFill e0

theorem reconcile_idem (icons : List IconEntry) (names : List String) :
    reconcileIcons (reconcileIcons icons names) names = reconcileIcons icons names := by
  have h1 : addNew (reconcileIcons icons names) names = reconcileIcons icons names :=
    addNew_eq_self names _ (fun n hn => reconcile_covers icons names n hn)
  have h2 : removeDead (reconcileIcons icons names) names = reconcileIcons icons names :=
    List.filter_eq_self.mpr (fun e he => reconcile_keep icons names e he)
  have h3 : jsSortEntries (reconcileIcons icons names) = reconcileIcons icons names :=
    List.Sorted.insertionSort_eq (reconcile_sorted icons names)
  have h4 : (reconcileIcons icons names).map tagFill = reconcileIcons icons names :=
    map_eq_self_of _ _ (fun e he => reconcile_tagFill_fix icons names e he)
  show (jsSortEntries (removeDead (addNew (reconcileIcons icons names) names) names)).map tagFill
      = reconcileIcons icons names
  rw [h1, h2, h3, h4]

/-- C3: catalog reconciliation gives every current icon identifier an
entry, keeps only entries whose name is a current icon identifier, and
produces a list sorted lexicographically by name. -/
theorem createDataJson_reconciles (icons : List IconEntry) (names : List String) :
    (∀ n ∈ names, ∃ e ∈ reconcileIcons icons names, e.name = n)
    ∧ (∀ e ∈ reconcileIcons icons names, e.name ∈ names)
    ∧ List.Sorted entryLe (reconcileIcons icons names) := by
  refine ⟨?_, fun e he => reconcile_name_mem icons names e he, reconcile_sorted icons names⟩
  intro n hn
  obtain ⟨e, he, hb⟩ := List.any_eq_true.mp (reconcile_covers icons names n hn)
  exact ⟨e, he, by simpa using hb⟩

/-- C4: reconciliation ends by mapping the tags step over the sorted
reconciled entries; that step preserves the entry's name, derives the
tags of a tagless entry as its name split on hyphens (then sorted), and
replaces pre-existing tags by the same tag multiset re-sorted (a
permutation of the old tags, sorted lexicographically — no tag added,
removed or regenerated). -/
theorem createDataJson_tags (icons : List IconEntry) (names : List String) :
    reconcileIcons icons names
        = (jsSortEntries (removeDead (addNew icons names) names)).map tagFill
    ∧ (∀ e : IconEntry, (tagFill e).name = e.name
        ∧ (e.tags = none → (tagFill e).tags = some (jsSortStrings (splitDashes e.name)))
        ∧ (∀ ts, e.tags = some ts → (tagFill e).tags = some (jsSortStrings ts)))
    ∧ (∀ ts : List String, (jsSortStrings ts).Perm ts ∧ List.Sorted strLe (jsSortStrings ts)) := by
  refine ⟨rfl, ?_, ?_⟩
  · intro e
    refine ⟨rfl, ?_, ?_⟩
    · intro h; simp [tagFill, h]
    · intro ts h; simp [tagFill, h]
  · intro ts
    exact ⟨List.perm_insertionSort strLe ts, List.sorted_insertionSort strLe ts⟩

/-- C5 counterexample: reconciliation does not deduplicate names. A
persisted catalog that already holds two entries both named "a",
reconciled against the current icon set containing exactly the icon "a",
yields a catalog whose name list "a", "a" is not duplicate-free — the
claim fails for inputs that already contain duplicate names. -/
theorem reconcile_duplicates_cex :
    ¬ ((reconcileIcons [{ name := "a", tags := none }, { name := "a", tags := none }]
        ["a"]).map IconEntry.name).Nodup := by
  have hsorted : List.Sorted entryLe
      [({ name := "a", tags := none } : IconEntry), { name := "a", tags := none }] := by
    refine List.sorted_cons.mpr ⟨?_, List.sorted_singleton _⟩
    intro b hb
    rw [List.mem_singleton] at hb
    subst hb
    exact lt_irrefl _
  have h3 : jsSortEntries
      [({ name := "a", tags := none } : IconEntry), { name := "a", tags := none }]
      = [{ name := "a", tags := none }, { name := "a", tags := none }] :=
    List.Sorted.insertionSort_eq hsorted
  have hrec : reconcileIcons
        [{ name := "a", tags := none }, { name := "a", tags := none }] ["a"]
      = [tagFill { name := "a", tags := none }, tagFill { name := "a", tags := none }] := by
    show (jsSortEntries
        [({ name := "a", tags := none } : IconEntry), { name := "a", tags := none }]).map tagFill
      = [tagFill { name := "a", tags := none }, tagFill { name := "a", tags := none }]
    rw [h3]
    rfl
  rw [hrec]
  intro hnd
  have : (List.map IconEntry.name
      [tagFill { name := "a", tags := none }, tagFill { name := "a", tags := none }])
      = ["a", "a"] := rfl
  rw [this] at hnd
  simp at hnd

theorem map_name_map_tagFill (l : List IconEntry) :
    (l.map tagFill).map IconEntry.name = l.map IconEntry.name := by
  induction l with
  | nil => rfl
  | cons a as ih =>
    simp only [List.map_cons]
    rw [ih]
    rfl

/-- C5 amended: when the persisted catalog has pairwise-distinct entry
names, the reconciled catalog also has pairwise-distinct names (the add
step only appends a name not yet present, and the other steps remove,
permute or rename nothing); duplicates already present in the input are
preserved, not removed. -/
theorem reconcile_nodup (icons : List IconEntry) (names : List String)
    (h : (icons.map IconEntry.name).Nodup) :
    ((reconcileIcons icons names).map IconEntry.name).Nodup := by
  have h1 := addNew_nodup names icons h
  have hsub : List.Sublist (removeDead (addNew icons names) names) (addNew icons names) :=
    List.filter_sublist _
  have h2 : ((removeDead (addNew icons names) names).map IconEntry.name).Nodup :=
    (hsub.map IconEntry.name).nodup h1
  have hperm : List.Perm (jsSortEntries (removeDead (addNew icons names) names))
      (removeDead (addNew icons names) names) := List.perm_insertionSort entryLe _
  have h3 : ((jsSortEntries (removeDead (addNew icons names) names)).map IconEntry.name).Nodup :=
    ((hperm.map IconEntry.name).nodup_iff).mpr h2
  show (((jsSortEntries (removeDead (addNew icons names) names)).map tagFill).map
      IconEntry.name).Nodup
  rw [map_name_map_tagFill]
  exact h3

theorem reconcile_nodup_witness :
    (([{ name := "a", tags := none }] : List IconEntry).map IconEntry.name).Nodup
    ∧ ((reconcileIcons [{ name := "a", tags := none }] ["a", "b"]).map IconEntry.name).Nodup :=
  ⟨by decide, reconcile_nodup [{ name := "a", tags := none }] ["a", "b"] (by decide)⟩

/-- C7: running the build again with the same version, the same icon
records and the catalog written by the first run reproduces the first
run's outputs exactly: catalog reconciliation is idempotent and sprite
and package emission are functions of the records and version alone, so
all catalog, sprite and package outputs are byte-identical. -/
theorem rebuild_idempotent (version : String) (data : JsonData) (recs : List SvgData) :
    runArtifacts version (runArtifacts version data recs).srcCatalog recs
      = runArtifacts version data recs := by
  simp only [runArtifacts, createDataJson]
  rw [reconcile_idem]

/-- C8 counterexample: after a build whose persisted catalog was missing
or unreadable (recovered as the empty object), the catalog written to the
source-of-truth location has no name field and no version field — only
the icons are written back, because createDataJson never sets either
field on the source-of-truth object. -/
theorem srcCatalog_missing_name_cex :
    (runArtifacts "1.0.0" { name := none, version := none, icons := [] } []).srcCatalog.name
        = none
    ∧ (runArtifacts "1.0.0" { name := none, version := none, icons := [] } []).srcCatalog.version
        = none :=
  ⟨rfl, rfl⟩

/-- C8 amended: the catalog written to the source-of-truth location is
the input catalog with its top-level name and version fields passed
through unchanged (present only when the persisted input had them) and
its icons replaced by the reconciled sorted entries, while the catalog
written to the distribution location is the reduced projection with the
fixed package name "ionicons", the current version, and the same icon
entries. -/
theorem catalog_projections (version : String) (data : JsonData) (recs : List SvgData) :
    (runArtifacts version data recs).srcCatalog
        = { name := data.name, version := data.version,
            icons := reconcileIcons data.icons (recs.map SvgData.iconName) }
    ∧ (runArtifacts version data recs).distCatalog
        = { name := some "ionicons", version := some version,
            icons := reconcileIcons data.icons (recs.map SvgData.iconName) } :=
  ⟨rfl, rfl⟩
